import Mathlib

/-!
Shallow embedding of the model-weight cache manager
(`src/professional_tui/electron/src/utils/storage_manager.ts`,
class `DistributedModelStorage`) and proofs about it.

Modelling conventions:
* Byte buffers (`Buffer`) are `List Nat`.
* The Node filesystem visible to the class (directory `storagePath`) is an
  association list from normalized path segment lists to file contents;
  `fs.writeFile`, `fs.readFile`, `fs.removeSync` act on it.  `fs.statSync`
  on the storage path is modelled by the state field `diskStatSize`.
* `path.join` (POSIX) is modelled by splitting every part on the character
  `/`, dropping empty and `.` segments and resolving `..` against the
  accumulated stack (absolute-path semantics: a `..` at the root is
  dropped), which is exactly Node's normalization for an absolute first
  part.
* `Date` timestamps are a logical clock `clock : Nat`, bumped once per
  public operation; real wall-clock time is monotone, and within one
  operation the source reads `new Date()` once.
* The JS `Map` (insertion ordered, `set` on an existing key keeps the
  original position) is an insertion-ordered list of entries with unique
  names; `Array.prototype.sort` (stable since ES2019) over `Map.values()`
  is modelled as sorting the index-annotated list by the lexicographic
  order (comparator key, original index), which characterises a stable
  sort.
* `zlib.brotliCompress` / `brotliDecompress` are an external codec,
  a parameter `Codec` of every operation; decompression can fail with a
  message (a thrown error in the source).
* `Math.floor(x * 0.8)` is modelled as the exact rational floor
  `x * 4 / 5` on `Nat`; both agree on every value used in this file
  (IEEE-754 rounding can deviate only at magnitudes irrelevant here).
* Desktop notifications are fire-and-forget side effects with no
  observable influence on the cache state and are not modelled.
-/

namespace StorageManager

/-- Splitter for `path.join`: cut a character list at every slash
(accumulator holds the current segment reversed). -/
def splitSlashGo : List Char → List Char → List (List Char)
  | acc, [] => [acc.reverse]
  | acc, c :: cs =>
    if c = '/' then acc.reverse :: splitSlashGo [] cs
    else splitSlashGo (c :: acc) cs

/-- Split a character list on the slash character. -/
def splitSlash (s : List Char) : List (List Char) :=
  splitSlashGo [] s

/-- The path segment consisting of a single dot. -/
def dotSeg : List Char := ['.']

/-- The parent-directory path segment. -/
def dotDotSeg : List Char := ['.', '.']

/-- One step of POSIX path normalization: drop empty and `.` segments,
let `..` pop the previous segment (at the root it is dropped, which is
Node's behaviour for absolute paths), and push everything else. -/
def normStep (acc : List (List Char)) (seg : List Char) : List (List Char) :=
  if seg = [] then acc
  else if seg = dotSeg then acc
  else if seg = dotDotSeg then acc.dropLast
  else acc ++ [seg]

/-- Normalize a list of raw segments. -/
def normSegs (l : List (List Char)) : List (List Char) :=
  l.foldl normStep []

/-- Model of Node's `path.join` for an absolute first part: the result is
the normalized list of path segments (the leading `/` is implicit). -/
def pathJoin (parts : List String) : List String :=
  (normSegs (parts.flatMap (fun p => splitSlash p.data))).map String.mk

/-- `interface ModelStorageConfig`, field `evictionStrategy`:
the union type `'lru' | 'least_accessed'`. -/
inductive EvictionStrategy where
  | lru
  | least_accessed
deriving DecidableEq, Repr

/-- `interface ModelStorageConfig` of the source. -/
structure ModelStorageConfig where
  maxModelSize : Nat
  compressionLevel : Nat
  evictionStrategy : EvictionStrategy
deriving DecidableEq, Repr

/-- `interface ModelCacheEntry` of the source; `timestamp` is the logical
clock value of the `Date` stored there. -/
structure ModelCacheEntry where
  modelName : String
  timestamp : Nat
  size : Nat
  accessCount : Nat
deriving DecidableEq, Repr

/-- The state of a `DistributedModelStorage` instance together with the
part of its environment it observes: the class fields `storagePath`,
`storageConfig` and `modelAccessLog`, the files under the storage
directory (`files`), the value `fs.statSync(storagePath).size` would
report (`diskStatSize`) and the logical clock for `new Date()`. -/
structure DistributedModelStorage where
  storagePath : String
  storageConfig : ModelStorageConfig
  modelAccessLog : List ModelCacheEntry
  files : List (List String × List Nat)
  diskStatSize : Nat
  clock : Nat
deriving DecidableEq, Repr

/-- The default configuration built in the constructor when no overrides
are given: `maxModelSize: 100 * 1024, compressionLevel: 9,
evictionStrategy: 'lru'`. -/
def defaultConfig : ModelStorageConfig :=
  { maxModelSize := 100 * 1024
    compressionLevel := 9
    evictionStrategy := EvictionStrategy.lru }

/-- The constructor: stores the path and the (resolved) configuration and
starts with an empty `modelAccessLog`.  `existingFiles` are whatever files
are already on disk — the constructor only ensures the cache directory
exists and never scans it. -/
def mkStorage (storagePath : String) (config : ModelStorageConfig)
    (existingFiles : List (List String × List Nat))
    (diskStatSize clock : Nat) : DistributedModelStorage :=
  { storagePath := storagePath
    storageConfig := config
    modelAccessLog := []
    files := existingFiles
    diskStatSize := diskStatSize
    clock := clock }

/-- `Map.get` on the access log. -/
def mapGet : List ModelCacheEntry → String → Option ModelCacheEntry
  | [], _ => none
  | e :: rest, n => if e.modelName = n then some e else mapGet rest n

/-- `Map.set` on the access log: replace in place (a JS `Map` keeps the
original insertion position when an existing key is set), else append. -/
def mapSet : List ModelCacheEntry → ModelCacheEntry → List ModelCacheEntry
  | [], e => [e]
  | x :: rest, e =>
    if x.modelName = e.modelName then e :: rest else x :: mapSet rest e

/-- `Map.delete` on the access log. -/
def mapDelete : List ModelCacheEntry → String → List ModelCacheEntry
  | [], _ => []
  | x :: rest, n => if x.modelName = n then rest else x :: mapDelete rest n

/-- `fs.readFile` on the modelled directory. -/
def readFile : List (List String × List Nat) → List String → Option (List Nat)
  | [], _ => none
  | f :: rest, p => if f.1 = p then some f.2 else readFile rest p

/-- `fs.writeFile` on the modelled directory (create or overwrite). -/
def writeFile : List (List String × List Nat) → List String → List Nat →
    List (List String × List Nat)
  | [], p, v => [(p, v)]
  | f :: rest, p, v =>
    if f.1 = p then (p, v) :: rest else f :: writeFile rest p v

/-- `fs.removeSync` on the modelled directory (no error when absent). -/
def removeFile : List (List String × List Nat) → List String →
    List (List String × List Nat)
  | [], _ => []
  | f :: rest, p => if f.1 = p then rest else f :: removeFile rest p

/-- The external blob codec (`zlib.brotliCompress` / `brotliDecompress`):
`compress` takes the quality level and the raw bytes; `decompress` may
fail with an error message. -/
structure Codec where
  compress : Nat → List Nat → List Nat
  decompress : List Nat → Except String (List Nat)

/-- `getModelStoragePath`:
`path.join(this.storagePath, 'model_cache', modelName + '.brotli')`. -/
def getModelStoragePath (storagePath modelName : String) : List String :=
  pathJoin [storagePath, "model_cache", modelName ++ ".brotli"]

/-- The entry literal `updateModelAccessLog` writes: current time, the
new size, and an access count bumped from the existing entry (or starting
at 1). -/
def storeEntry (s : DistributedModelStorage) (modelName : String)
    (size : Nat) : ModelCacheEntry :=
  { modelName := modelName
    timestamp := s.clock
    size := size
    accessCount :=
      match mapGet s.modelAccessLog modelName with
      | some e => e.accessCount + 1
      | none => 1 }

/-- `updateModelAccessLog`: set the entry for `modelName`. -/
def updateModelAccessLog (s : DistributedModelStorage) (modelName : String)
    (size : Nat) : DistributedModelStorage :=
  { s with modelAccessLog := mapSet s.modelAccessLog (storeEntry s modelName size) }

/-- `updateModelAccessCount`: if an entry exists, bump its access count
and refresh its timestamp in place. -/
def updateModelAccessCount (s : DistributedModelStorage)
    (modelName : String) : DistributedModelStorage :=
  { s with modelAccessLog :=
      s.modelAccessLog.map (fun e =>
        if e.modelName = modelName then
          { e with accessCount := e.accessCount + 1, timestamp := s.clock }
        else e) }

/-- `calculateTotalCacheSize`: `reduce((total, e) => total + e.size, 0)`
over the access log's values. -/
def calculateTotalCacheSize (s : DistributedModelStorage) : Nat :=
  s.modelAccessLog.foldl (fun total e => total + e.size) 0

/-- `getTotalDiskSpace`: `fs.statSync(this.storagePath).size` — the stat
size of the storage directory entry itself, a sampled filesystem value. -/
def getTotalDiskSpace (s : DistributedModelStorage) : Nat :=
  s.diskStatSize

/-- `calculateMaxCacheSize`: `Math.floor(getTotalDiskSpace() * 0.8)`,
modelled as the exact floor `x * 4 / 5`. -/
def calculateMaxCacheSize (s : DistributedModelStorage) : Nat :=
  getTotalDiskSpace s * 4 / 5

/-- The comparator key of `evictModels`'s sort: timestamp under `lru`,
access count under `least_accessed`. -/
def evictKey (strategy : EvictionStrategy) (e : ModelCacheEntry) : Nat :=
  match strategy with
  | EvictionStrategy.lru => e.timestamp
  | EvictionStrategy.least_accessed => e.accessCount

/-- Order used to model the stable JS sort: lexicographic on
(comparator key, original position in the map). -/
def evictRank (strategy : EvictionStrategy)
    (p q : Nat × ModelCacheEntry) : Prop :=
  evictKey strategy p.2 < evictKey strategy q.2 ∨
    (evictKey strategy p.2 = evictKey strategy q.2 ∧ p.1 ≤ q.1)

instance (strategy : EvictionStrategy) : DecidableRel (evictRank strategy) :=
  fun p q => by unfold evictRank; exact inferInstance

instance (strategy : EvictionStrategy) :
    IsTotal (Nat × ModelCacheEntry) (evictRank strategy) := by
  constructor; intro a b; unfold evictRank; omega

instance (strategy : EvictionStrategy) :
    IsTrans (Nat × ModelCacheEntry) (evictRank strategy) := by
  constructor; intro a b c; unfold evictRank; omega

/-- The sorted candidate list of `evictModels`:
`Array.from(map.values()).sort(comparator)` — the map's values in
insertion order, stably sorted by the strategy's comparator. -/
def sortedModels (s : DistributedModelStorage) : List ModelCacheEntry :=
  (List.insertionSort (evictRank s.storageConfig.evictionStrategy)
    s.modelAccessLog.enum).map Prod.snd

/-- The eviction loop of `evictModels`: walk the sorted candidates,
stopping as soon as `freedBytes >= bytesToFree`, otherwise deleting the
candidate's file and map entry and accumulating its size. -/
def evictGo (bytesToFree : Nat) :
    Nat → List ModelCacheEntry → DistributedModelStorage →
    DistributedModelStorage
  | _, [], s => s
  | freedBytes, m :: rest, s =>
    if bytesToFree ≤ freedBytes then s
    else
      evictGo bytesToFree (freedBytes + m.size) rest
        { s with
          files := removeFile s.files
            (getModelStoragePath s.storagePath m.modelName)
          modelAccessLog := mapDelete s.modelAccessLog m.modelName }

/-- `evictModels(bytesToFree)`. -/
def evictModels (s : DistributedModelStorage) (bytesToFree : Nat) :
    DistributedModelStorage :=
  evictGo bytesToFree 0 (sortedModels s) s

/-- `manageCacheSpace`: trigger eviction when the total cache size
exceeds the computed maximum. -/
def manageCacheSpace (s : DistributedModelStorage) : DistributedModelStorage :=
  let totalCacheSize := calculateTotalCacheSize s
  let maxCacheSize := calculateMaxCacheSize s
  if maxCacheSize < totalCacheSize then
    evictModels s (totalCacheSize - maxCacheSize)
  else s

/-- `storeModelWeights`: compress, write the file, update the access log,
then manage cache space.  In the modelled fault-free filesystem the write
never throws, so the operation always succeeds (the source has no
validation of the name or the payload). -/
def storeModelWeights (codec : Codec) (s : DistributedModelStorage)
    (modelName : String) (weights : List Nat) :
    DistributedModelStorage × Except String Unit :=
  let compressedWeights :=
    codec.compress s.storageConfig.compressionLevel weights
  let storagePath := getModelStoragePath s.storagePath modelName
  let s1 := { s with files := writeFile s.files storagePath compressedWeights }
  let s2 := updateModelAccessLog s1 modelName compressedWeights.length
  let s3 := manageCacheSpace s2
  ({ s3 with clock := s3.clock + 1 }, Except.ok ())

/-- The message of the single generic error `retrieveModelWeights` throws
on any failure: `Model <name> not found in storage: <inner message>`. -/
def retrieveErrorMsg (modelName innerMsg : String) : String :=
  "Model " ++ modelName ++ " not found in storage: " ++ innerMsg

/-- The inner message when `fs.readFile` fails because the file is
absent. -/
def enoentMsg : String := "ENOENT: no such file or directory"

/-- `retrieveModelWeights`: read the compressed file (absence throws,
caught and rethrown as the generic not-found error), bump the access
count, then decompress (failure is caught and rethrown as the same
generic error). -/
def retrieveModelWeights (codec : Codec) (s : DistributedModelStorage)
    (modelName : String) :
    DistributedModelStorage × Except String (List Nat) :=
  let storagePath := getModelStoragePath s.storagePath modelName
  match readFile s.files storagePath with
  | none =>
    ({ s with clock := s.clock + 1 },
     Except.error (retrieveErrorMsg modelName enoentMsg))
  | some compressedWeights =>
    let s1 := updateModelAccessCount s modelName
    match codec.decompress compressedWeights with
    | Except.ok weights =>
      ({ s1 with clock := s1.clock + 1 }, Except.ok weights)
    | Except.error msg =>
      ({ s1 with clock := s1.clock + 1 },
       Except.error (retrieveErrorMsg modelName msg))

/-- `listCachedModels`: the map's keys in insertion order. -/
def listCachedModels (s : DistributedModelStorage) : List String :=
  s.modelAccessLog.map (fun e => e.modelName)

/-- The record returned by `getCacheStats`. -/
structure CacheStats where
  totalModels : Nat
  totalSize : Nat
  availableSpace : Int
deriving DecidableEq, Repr

/-- `getCacheStats`. -/
def getCacheStats (s : DistributedModelStorage) : CacheStats :=
  { totalModels := s.modelAccessLog.length
    totalSize := calculateTotalCacheSize s
    availableSpace :=
      (calculateMaxCacheSize s : Int) - (calculateTotalCacheSize s : Int) }

/-! Specification-side helpers used to state theorems, and concrete
states used as test vectors. -/

/-- The names of the entries of an access log, in map order. -/
def entryNames (l : List ModelCacheEntry) : List String :=
  l.map (fun e => e.modelName)

/-- Sum of the sizes of a list of entries. -/
def sizeSum (l : List ModelCacheEntry) : Nat :=
  (l.map (fun e => e.size)).sum

/-- How many candidates the eviction loop consumes: the length of the
shortest prefix of the sorted candidate list whose sizes accumulate to at
least `bytesToFree` (all of them when even that is not enough). -/
def victimCount (bytesToFree : Nat) : Nat → List ModelCacheEntry → Nat
  | _, [] => 0
  | freed, m :: rest =>
    if bytesToFree ≤ freed then 0
    else victimCount bytesToFree (freed + m.size) rest + 1

/-- Delete one victim: remove its backend file and its map entry
(the body of one iteration of the eviction loop). -/
def removeEntry (t : DistributedModelStorage) (m : ModelCacheEntry) :
    DistributedModelStorage :=
  { t with
    files := removeFile t.files
      (getModelStoragePath t.storagePath m.modelName)
    modelAccessLog := mapDelete t.modelAccessLog m.modelName }

/-- Delete the given victims in order. -/
def removeEntries (victims : List ModelCacheEntry)
    (s : DistributedModelStorage) : DistributedModelStorage :=
  victims.foldl removeEntry s

/-- Change only the `maxModelSize` configuration field. -/
def setMaxModelSize (s : DistributedModelStorage) (m : Nat) :
    DistributedModelStorage :=
  { s with storageConfig := { s.storageConfig with maxModelSize := m } }

/-- One public call of the cache API. -/
inductive Op where
  | store (modelName : String) (weights : List Nat)
  | retrieve (modelName : String)
  | list
  | stats
deriving DecidableEq, Repr

/-- The caller-visible result of one public call. -/
inductive OpResult where
  | storeRes (r : Except String Unit)
  | retrieveRes (r : Except String (List Nat))
  | listRes (names : List String)
  | statsRes (st : CacheStats)
deriving Repr

/-- Run one public call. -/
def runOp (codec : Codec) (s : DistributedModelStorage) :
    Op → DistributedModelStorage × OpResult
  | Op.store n w =>
    let r := storeModelWeights codec s n w
    (r.1, OpResult.storeRes r.2)
  | Op.retrieve n =>
    let r := retrieveModelWeights codec s n
    (r.1, OpResult.retrieveRes r.2)
  | Op.list => (s, OpResult.listRes (listCachedModels s))
  | Op.stats => (s, OpResult.statsRes (getCacheStats s))

/-- Run a sequence of public calls, collecting every result. -/
def run (codec : Codec) : List Op → DistributedModelStorage →
    DistributedModelStorage × List OpResult
  | [], s => (s, [])
  | op :: ops, s =>
    let r := runOp codec s op
    let rest := run codec ops r.1
    (rest.1, r.2 :: rest.2)

/-- The identity codec: a legitimate instance of the spec's Blob Codec
contract (byte-exact round trip) with compressed size equal to input
size, used for concrete test vectors. -/
def idCodec : Codec :=
  { compress := fun _ w => w
    decompress := fun w => Except.ok w }

/-- A codec whose decompression always fails (models corrupt data under
`brotliDecompress`, which throws). -/
def failCodec : Codec :=
  { compress := fun _ w => w
    decompress := fun _ => Except.error "junk" }

/-- Fresh store over an empty directory whose sampled stat size is 125,
so the computed capacity is `floor(125 * 0.8) = 100` bytes. -/
def s0 : DistributedModelStorage :=
  mkStorage "/store" defaultConfig [] 125 0

/-- State after storing artifact A (compressed size 40) in `s0`. -/
def sA : DistributedModelStorage :=
  (storeModelWeights idCodec s0 "A" (List.replicate 40 1)).1

/-- State after storing artifacts A then B (both compressed size 40). -/
def sB : DistributedModelStorage :=
  (storeModelWeights idCodec sA "B" (List.replicate 40 2)).1

/-- State after storing artifacts A, B, C (all compressed size 40): the
third store pushes the occupied space to 120 > 100 and triggers
eviction. -/
def sC : DistributedModelStorage :=
  (storeModelWeights idCodec sB "C" (List.replicate 40 3)).1

/-- State after storing a single artifact whose compressed size (150)
alone exceeds the capacity (100) in a fresh store. -/
def sBig : DistributedModelStorage :=
  (storeModelWeights idCodec s0 "A" (List.replicate 150 1)).1

/-- A state as observed right after a process restart: the constructor
runs over a directory that still holds a stored file, with an empty
in-memory access log. -/
def restartState : DistributedModelStorage :=
  mkStorage "/store" defaultConfig
    [(getModelStoragePath "/store" "A", [1, 2, 3])] 125 0

/-- A state identical to `s0` except that the sampled stat size of the
storage directory is 250 instead of 125. -/
def s0big : DistributedModelStorage :=
  mkStorage "/store" defaultConfig [] 250 0

/-- A state whose access log is over capacity (one 150-byte entry against
the 100-byte computed capacity), as it looks right before
`manageCacheSpace` runs. -/
def sOver : DistributedModelStorage :=
  { s0 with modelAccessLog :=
      [{ modelName := "A", timestamp := 0, size := 150, accessCount := 1 }] }

deriving instance DecidableEq for Except

/-- The access-log names are pairwise distinct.  A JS `Map` guarantees
this structurally for its keys, so every state that corresponds to a run
of the source satisfies it; it appears as an explicit hypothesis where a
theorem ranges over arbitrary model states. -/
abbrev namesNodup (l : List ModelCacheEntry) : Prop :=
  l.Pairwise (fun a b => a.modelName ≠ b.modelName)

/-! Lemmas about the filesystem model. -/

theorem readFile_writeFile (fl : List (List String × List Nat))
    (p : List String) (v : List Nat) :
    readFile (writeFile fl p v) p = some v := by
  induction fl with
  | nil => simp [writeFile, readFile]
  | cons f rest ih =>
    by_cases h : f.1 = p
    · simp [writeFile, readFile, h]
    · simp [writeFile, readFile, h, ih]

theorem readFile_removeFile_ne (fl : List (List String × List Nat))
    (p q : List String) (h : q ≠ p) :
    readFile (removeFile fl q) p = readFile fl p := by
  induction fl with
  | nil => simp [removeFile]
  | cons f rest ih =>
    by_cases hf : f.1 = q
    · have hp : f.1 ≠ p := by rw [hf]; exact h
      simp [removeFile, hf, readFile, hp, h]
    · by_cases hp : f.1 = p
      · simp [removeFile, hf, readFile, hp, Ne.symm h]
      · simp [removeFile, hf, readFile, hp, ih]

/-! Lemmas about the access-log map model. -/

theorem mapGet_eq_none_iff (l : List ModelCacheEntry) (n : String) :
    mapGet l n = none ↔ ∀ e ∈ l, e.modelName ≠ n := by
  induction l with
  | nil => simp [mapGet]
  | cons x rest ih =>
    by_cases h : x.modelName = n
    · simp only [mapGet, if_pos h]
      constructor
      · intro hc; cases hc
      · intro hall; exact ((hall x (List.mem_cons_self x rest)) h).elim
    · simp only [mapGet, if_neg h, ih, List.forall_mem_cons]
      constructor
      · intro hall; exact ⟨h, hall⟩
      · intro hall; exact hall.2

theorem mapDelete_sublist (l : List ModelCacheEntry) (n : String) :
    (mapDelete l n).Sublist l := by
  induction l with
  | nil => simp [mapDelete]
  | cons x rest ih =>
    by_cases h : x.modelName = n
    · simp only [mapDelete, if_pos h]
      exact List.sublist_cons_self x rest
    · simp only [mapDelete, if_neg h]
      exact ih.cons₂ x

theorem mem_mapDelete_of_ne (l : List ModelCacheEntry) (n : String)
    (x : ModelCacheEntry) (hx : x ∈ l) (hne : x.modelName ≠ n) :
    x ∈ mapDelete l n := by
  induction l with
  | nil => cases hx
  | cons y rest ih =>
    by_cases h : y.modelName = n
    · simp only [mapDelete, if_pos h]
      rcases List.mem_cons.mp hx with he | hm
      · exact absurd (he ▸ hne) (by rw [h]; simp)
      · exact hm
    · simp only [mapDelete, if_neg h]
      rcases List.mem_cons.mp hx with he | hm
      · exact he ▸ List.mem_cons_self y _
      · exact List.mem_cons_of_mem y (ih hm)

theorem mapGet_of_mem_nodup (l : List ModelCacheEntry)
    (x : ModelCacheEntry) (hx : x ∈ l) (hnd : namesNodup l) :
    mapGet l x.modelName = some x := by
  induction l with
  | nil => cases hx
  | cons y rest ih =>
    obtain ⟨hnd1, hnd2⟩ := List.pairwise_cons.mp hnd
    rcases List.mem_cons.mp hx with he | hm
    · subst he
      simp [mapGet]
    · have hyx : y.modelName ≠ x.modelName := hnd1 x hm
      simp only [mapGet, if_neg hyx]
      exact ih hm hnd2

theorem mapGet_mapDelete_self (l : List ModelCacheEntry) (n : String)
    (hnd : namesNodup l) :
    mapGet (mapDelete l n) n = none := by
  induction l with
  | nil => simp [mapDelete, mapGet]
  | cons x rest ih =>
    obtain ⟨hnd1, hnd2⟩ := List.pairwise_cons.mp hnd
    by_cases h : x.modelName = n
    · simp only [mapDelete, if_pos h]
      rw [mapGet_eq_none_iff]
      intro e he hcontra
      exact (hnd1 e he) (h.trans hcontra.symm)
    · simp only [mapDelete, if_neg h, mapGet, if_neg h]
      exact ih hnd2

theorem mapGet_none_mapDelete (l : List ModelCacheEntry) (m n : String)
    (h : mapGet l n = none) : mapGet (mapDelete l m) n = none := by
  rw [mapGet_eq_none_iff] at h ⊢
  exact fun e he => h e ((mapDelete_sublist l m).subset he)

theorem mem_mapSet (l : List ModelCacheEntry) (e x : ModelCacheEntry)
    (h : x ∈ mapSet l e) : x = e ∨ x ∈ l := by
  induction l with
  | nil => simp [mapSet] at h; exact Or.inl h
  | cons y rest ih =>
    by_cases hy : y.modelName = e.modelName
    · simp only [mapSet, if_pos hy] at h
      rcases List.mem_cons.mp h with he | hm
      · exact Or.inl he
      · exact Or.inr (List.mem_cons_of_mem y hm)
    · simp only [mapSet, if_neg hy] at h
      rcases List.mem_cons.mp h with he | hm
      · exact Or.inr (he ▸ List.mem_cons_self y rest)
      · rcases ih hm with h1 | h2
        · exact Or.inl h1
        · exact Or.inr (List.mem_cons_of_mem y h2)

theorem namesNodup_mapSet (l : List ModelCacheEntry)
    (e : ModelCacheEntry) (h : namesNodup l) : namesNodup (mapSet l e) := by
  induction l with
  | nil =>
    simp [mapSet, namesNodup]
  | cons x rest ih =>
    obtain ⟨h1, h2⟩ := List.pairwise_cons.mp h
    by_cases hx : x.modelName = e.modelName
    · simp only [mapSet, if_pos hx]
      refine List.pairwise_cons.mpr ⟨?_, h2⟩
      intro b hb hc
      exact (h1 b hb) (hx.trans hc)
    · simp only [mapSet, if_neg hx]
      refine List.pairwise_cons.mpr ⟨?_, ih h2⟩
      intro b hb
      rcases mem_mapSet rest e b hb with he | hm
      · rw [he]; exact hx
      · exact h1 b hm

theorem namesNodup_mapDelete (l : List ModelCacheEntry) (n : String)
    (h : namesNodup l) : namesNodup (mapDelete l n) :=
  h.sublist (mapDelete_sublist l n)

/-! Lemmas about sizes. -/

theorem sizeSum_nil : sizeSum [] = 0 := rfl

theorem sizeSum_cons (m : ModelCacheEntry) (l : List ModelCacheEntry) :
    sizeSum (m :: l) = m.size + sizeSum l := by
  simp [sizeSum]

theorem foldl_add_size (l : List ModelCacheEntry) :
    ∀ a : Nat, l.foldl (fun total e => total + e.size) a = a + sizeSum l := by
  induction l with
  | nil => intro a; simp [sizeSum]
  | cons m rest ih =>
    intro a
    simp only [List.foldl_cons, ih, sizeSum_cons]
    omega

theorem calculateTotalCacheSize_eq (s : DistributedModelStorage) :
    calculateTotalCacheSize s = sizeSum s.modelAccessLog := by
  unfold calculateTotalCacheSize
  simpa using foldl_add_size s.modelAccessLog 0

theorem sizeSum_mapDelete (l : List ModelCacheEntry) (n : String)
    (e : ModelCacheEntry) (hget : mapGet l n = some e) :
    sizeSum (mapDelete l n) + e.size = sizeSum l := by
  induction l with
  | nil => simp [mapGet] at hget
  | cons x rest ih =>
    by_cases h : x.modelName = n
    · simp only [mapGet, if_pos h, Option.some.injEq] at hget
      subst hget
      simp only [mapDelete, if_pos h, sizeSum_cons]
      omega
    · simp only [mapGet, if_neg h] at hget
      simp only [mapDelete, if_neg h, sizeSum_cons]
      have := ih hget
      omega

/-! Lemmas about the eviction machinery. -/

theorem sortedModels_perm (s : DistributedModelStorage) :
    (sortedModels s).Perm s.modelAccessLog := by
  unfold sortedModels
  have h :=
    (List.perm_insertionSort (evictRank s.storageConfig.evictionStrategy)
      s.modelAccessLog.enum).map Prod.snd
  rwa [List.enum_map_snd] at h

theorem mem_sortedModels (s : DistributedModelStorage)
    (m : ModelCacheEntry) : m ∈ sortedModels s ↔ m ∈ s.modelAccessLog :=
  (sortedModels_perm s).mem_iff

theorem sizeSum_sortedModels (s : DistributedModelStorage) :
    sizeSum (sortedModels s) = sizeSum s.modelAccessLog := by
  unfold sizeSum
  exact ((sortedModels_perm s).map (fun e => e.size)).sum_eq

theorem namesNodup_sortedModels (s : DistributedModelStorage)
    (h : namesNodup s.modelAccessLog) : namesNodup (sortedModels s) := by
  have hp := sortedModels_perm s
  exact (hp.pairwise_iff (fun hxy => Ne.symm hxy)).mpr h

theorem evictGo_storagePath (b : Nat) :
    ∀ (ms : List ModelCacheEntry) (f : Nat) (s : DistributedModelStorage),
    (evictGo b f ms s).storagePath = s.storagePath := by
  intro ms
  induction ms with
  | nil => intro f s; rfl
  | cons m rest ih =>
    intro f s
    by_cases h : b ≤ f
    · simp [evictGo, h]
    · simp [evictGo, h, ih]

theorem evictGo_mapGet_none (b : Nat) (n : String) :
    ∀ (ms : List ModelCacheEntry) (f : Nat) (s : DistributedModelStorage),
    mapGet s.modelAccessLog n = none →
    mapGet (evictGo b f ms s).modelAccessLog n = none := by
  intro ms
  induction ms with
  | nil => intro f s h; exact h
  | cons m rest ih =>
    intro f s h
    by_cases hb : b ≤ f
    · simpa [evictGo, hb] using h
    · simp only [evictGo, if_neg hb]
      exact ih _ _ (mapGet_none_mapDelete _ _ _ h)

theorem evictGo_keeps_file (b : Nat) (n : String) (c : List Nat) :
    ∀ (ms : List ModelCacheEntry) (f : Nat) (s : DistributedModelStorage),
    (∀ m ∈ ms, m.modelName ≠ n →
      getModelStoragePath s.storagePath m.modelName ≠
        getModelStoragePath s.storagePath n) →
    namesNodup s.modelAccessLog →
    readFile s.files (getModelStoragePath s.storagePath n) = some c →
    (mapGet (evictGo b f ms s).modelAccessLog n).isSome = true →
    readFile (evictGo b f ms s).files
      (getModelStoragePath s.storagePath n) = some c := by
  intro ms
  induction ms with
  | nil => intro f s _ _ hfile _; exact hfile
  | cons m rest ih =>
    intro f s hpath hnd hfile hsome
    by_cases hb : b ≤ f
    · simpa [evictGo, hb] using hfile
    · simp only [evictGo, if_neg hb] at hsome ⊢
      by_cases hm : m.modelName = n
      · exfalso
        have hdel : mapGet (mapDelete s.modelAccessLog m.modelName) n = none := by
          rw [hm]
          exact mapGet_mapDelete_self _ _ hnd
        have hnone := evictGo_mapGet_none b n rest (f + m.size)
          { s with
            files := removeFile s.files
              (getModelStoragePath s.storagePath m.modelName)
            modelAccessLog := mapDelete s.modelAccessLog m.modelName } hdel
        rw [hnone] at hsome
        simp at hsome
      · have hpne : getModelStoragePath s.storagePath m.modelName ≠
            getModelStoragePath s.storagePath n :=
          hpath m (List.mem_cons_self m rest) hm
        exact ih (f + m.size) _
          (fun u hu => hpath u (List.mem_cons_of_mem m hu))
          (namesNodup_mapDelete _ _ hnd)
          (by simpa [readFile_removeFile_ne _ _ _ hpne] using hfile)
          hsome

theorem evictGo_eq (b : Nat) :
    ∀ (ms : List ModelCacheEntry) (f : Nat) (s : DistributedModelStorage),
    evictGo b f ms s = removeEntries (ms.take (victimCount b f ms)) s := by
  intro ms
  induction ms with
  | nil => intro f s; rfl
  | cons m rest ih =>
    intro f s
    by_cases h : b ≤ f
    · simp [evictGo, victimCount, h, removeEntries]
    · simp only [evictGo, victimCount, if_neg h, List.take_succ_cons,
        removeEntries, List.foldl_cons]
      exact ih _ _

theorem le_sizeSum_take_victimCount (b : Nat) :
    ∀ (ms : List ModelCacheEntry) (f : Nat), b ≤ f + sizeSum ms →
    b ≤ f + sizeSum (ms.take (victimCount b f ms)) := by
  intro ms
  induction ms with
  | nil => intro f h; simpa [victimCount] using h
  | cons m rest ih =>
    intro f h
    by_cases hb : b ≤ f
    · simp only [victimCount, if_pos hb, List.take_zero, sizeSum]
      simpa using hb
    · simp only [victimCount, if_neg hb, List.take_succ_cons, sizeSum_cons]
      rw [sizeSum_cons] at h
      have := ih (f + m.size) (by omega)
      omega

theorem sizeSum_take_lt_victimCount (b : Nat) :
    ∀ (ms : List ModelCacheEntry) (f j : Nat), j < victimCount b f ms →
    f + sizeSum (ms.take j) < b := by
  intro ms
  induction ms with
  | nil => intro f j h; simp [victimCount] at h
  | cons m rest ih =>
    intro f j h
    by_cases hb : b ≤ f
    · simp [victimCount, hb] at h
    · cases j with
      | zero => simp only [List.take_zero, sizeSum]; simp; omega
      | succ j =>
        simp only [victimCount, if_neg hb] at h
        have := ih (f + m.size) j (by omega)
        simp only [List.take_succ_cons, sizeSum_cons]
        omega

theorem removeEntries_sizeSum :
    ∀ (vs : List ModelCacheEntry) (s : DistributedModelStorage),
    (∀ v ∈ vs, v ∈ s.modelAccessLog) → namesNodup s.modelAccessLog →
    namesNodup vs →
    sizeSum (removeEntries vs s).modelAccessLog + sizeSum vs =
      sizeSum s.modelAccessLog := by
  intro vs
  induction vs with
  | nil => intro s _ _ _; simp [removeEntries, sizeSum]
  | cons v rest ih =>
    intro s hmem hnds hndv
    obtain ⟨hndv1, hndv2⟩ := List.pairwise_cons.mp hndv
    have hget :=
      mapGet_of_mem_nodup _ v (hmem v (List.mem_cons_self v rest)) hnds
    have h1 := sizeSum_mapDelete s.modelAccessLog v.modelName v hget
    have hmem2 : ∀ u ∈ rest, u ∈ (removeEntry s v).modelAccessLog := by
      intro u hu
      exact mem_mapDelete_of_ne _ _ u (hmem u (List.mem_cons_of_mem v hu))
        (fun hc => (hndv1 u hu) hc.symm)
    have hnds2 : namesNodup (removeEntry s v).modelAccessLog :=
      namesNodup_mapDelete _ _ hnds
    have h2 := ih (removeEntry s v) hmem2 hnds2 hndv2
    have h3 : (removeEntry s v).modelAccessLog =
        mapDelete s.modelAccessLog v.modelName := rfl
    rw [h3] at h2
    simp only [removeEntries, List.foldl_cons] at h2 ⊢
    rw [sizeSum_cons]
    omega

theorem manageCacheSpace_le (s : DistributedModelStorage)
    (hnd : namesNodup s.modelAccessLog) :
    calculateTotalCacheSize (manageCacheSpace s) ≤ calculateMaxCacheSize s := by
  by_cases h : calculateMaxCacheSize s < calculateTotalCacheSize s
  · have hs : manageCacheSpace s =
        evictModels s (calculateTotalCacheSize s - calculateMaxCacheSize s) := by
      simp [manageCacheSpace, h]
    rw [hs]
    unfold evictModels
    rw [evictGo_eq]
    set b := calculateTotalCacheSize s - calculateMaxCacheSize s with hbdef
    set victims :=
      (sortedModels s).take (victimCount b 0 (sortedModels s)) with hvdef
    have hvs : ∀ v ∈ victims, v ∈ s.modelAccessLog := by
      intro v hv
      exact (mem_sortedModels s v).mp
        ((List.take_sublist _ _).subset hv)
    have hndv : namesNodup victims :=
      (namesNodup_sortedModels s hnd).sublist (List.take_sublist _ _)
    have hsz := removeEntries_sizeSum victims s hvs hnd hndv
    have hreach : b ≤ 0 + sizeSum victims := by
      apply le_sizeSum_take_victimCount
      rw [sizeSum_sortedModels, ← calculateTotalCacheSize_eq]
      omega
    rw [calculateTotalCacheSize_eq] at h ⊢
    have htot := calculateTotalCacheSize_eq s
    omega
  · have hs : manageCacheSpace s = s := by
      simp [manageCacheSpace, h]
    rw [hs]
    omega

/-! Lemmas about the public operations. -/

theorem retrieve_of_file (codec : Codec) (s : DistributedModelStorage)
    (n : String) (c b : List Nat)
    (hf : readFile s.files (getModelStoragePath s.storagePath n) = some c)
    (hd : codec.decompress c = Except.ok b) :
    (retrieveModelWeights codec s n).2 = Except.ok b := by
  simp [retrieveModelWeights, hf, hd]

theorem manageCacheSpace_storagePath (s : DistributedModelStorage) :
    (manageCacheSpace s).storagePath = s.storagePath := by
  simp only [manageCacheSpace, evictModels]
  by_cases h : calculateMaxCacheSize s < calculateTotalCacheSize s
  · simp only [if_pos h, evictGo_storagePath]
  · simp only [if_neg h]

theorem store_storagePath (codec : Codec) (s : DistributedModelStorage)
    (n : String) (w : List Nat) :
    (storeModelWeights codec s n w).1.storagePath = s.storagePath := by
  show (manageCacheSpace (updateModelAccessLog
    { s with files := (writeFile s.files (getModelStoragePath s.storagePath n)
        (codec.compress s.storageConfig.compressionLevel w)) } n
    (codec.compress s.storageConfig.compressionLevel w).length)).storagePath =
    s.storagePath
  rw [manageCacheSpace_storagePath]
  rfl

theorem manageCacheSpace_keeps_file (s : DistributedModelStorage)
    (n : String) (c : List Nat)
    (hdist : ∀ m ∈ s.modelAccessLog, m.modelName ≠ n →
      getModelStoragePath s.storagePath m.modelName ≠
        getModelStoragePath s.storagePath n)
    (hnd : namesNodup s.modelAccessLog)
    (hfile : readFile s.files (getModelStoragePath s.storagePath n) = some c)
    (hsome : (mapGet (manageCacheSpace s).modelAccessLog n).isSome = true) :
    readFile (manageCacheSpace s).files
      (getModelStoragePath s.storagePath n) = some c := by
  simp only [manageCacheSpace, evictModels] at hsome ⊢
  by_cases h : calculateMaxCacheSize s < calculateTotalCacheSize s
  · simp only [if_pos h] at hsome ⊢
    apply evictGo_keeps_file
    · intro m hm
      exact hdist m ((mem_sortedModels s m).mp hm)
    · exact hnd
    · exact hfile
    · exact hsome
  · simp only [if_neg h] at hsome ⊢
    exact hfile

theorem store_keeps_file (codec : Codec) (s : DistributedModelStorage)
    (n : String) (w : List Nat)
    (hnd : namesNodup s.modelAccessLog)
    (hdist : ∀ e ∈ s.modelAccessLog, e.modelName ≠ n →
      getModelStoragePath s.storagePath e.modelName ≠
        getModelStoragePath s.storagePath n)
    (hin : (mapGet (storeModelWeights codec s n w).1.modelAccessLog n).isSome
      = true) :
    readFile (storeModelWeights codec s n w).1.files
      (getModelStoragePath s.storagePath n) =
      some (codec.compress s.storageConfig.compressionLevel w) := by
  set c := codec.compress s.storageConfig.compressionLevel w with hc
  set p := getModelStoragePath s.storagePath n with hp
  set s1 : DistributedModelStorage :=
    { s with files := writeFile s.files p c } with hs1
  set s2 := updateModelAccessLog s1 n c.length with hs2
  have hin2 : (mapGet (manageCacheSpace s2).modelAccessLog n).isSome = true :=
    hin
  have hgoal : readFile (manageCacheSpace s2).files p = some c →
      readFile (storeModelWeights codec s n w).1.files p = some c :=
    fun h => h
  apply hgoal
  have hdist2 : ∀ m ∈ s2.modelAccessLog, m.modelName ≠ n →
      getModelStoragePath s2.storagePath m.modelName ≠
        getModelStoragePath s2.storagePath n := by
    intro m hm hne
    have hm2 : m ∈ mapSet s.modelAccessLog (storeEntry s1 n c.length) := hm
    rcases mem_mapSet _ _ m hm2 with he | hmem
    · exact absurd (congrArg ModelCacheEntry.modelName he) hne
    · exact hdist m hmem hne
  have hnd2 : namesNodup s2.modelAccessLog :=
    namesNodup_mapSet s.modelAccessLog (storeEntry s1 n c.length) hnd
  have hfile2 : readFile s2.files p = some c := readFile_writeFile s.files p c
  exact manageCacheSpace_keeps_file s2 n c hdist2 hnd2 hfile2 hin2

/-! Lemmas about path derivation. -/

theorem splitSlashGo_no_slash (cs : List Char) (h : '/' ∉ cs) :
    ∀ acc : List Char, splitSlashGo acc cs = [acc.reverse ++ cs] := by
  induction cs with
  | nil => intro acc; simp [splitSlashGo]
  | cons c rest ih =>
    intro acc
    have hc : ¬ c = '/' := by
      intro hc
      exact h (hc ▸ List.mem_cons_self c rest)
    have h2 : '/' ∉ rest := fun hm => h (List.mem_cons_of_mem c hm)
    simp [splitSlashGo, hc, ih h2]

theorem splitSlash_no_slash (cs : List Char) (h : '/' ∉ cs) :
    splitSlash cs = [cs] := by
  simpa using splitSlashGo_no_slash cs h []

theorem normStep_push (acc : List (List Char)) (seg : List Char)
    (h1 : seg ≠ []) (h2 : seg ≠ dotSeg) (h3 : seg ≠ dotDotSeg) :
    normStep acc seg = acc ++ [seg] := by
  simp [normStep, h1, h2, h3]

theorem foldl_normStep_clean :
    ∀ (l : List (List Char)) (acc : List (List Char)),
    (∀ seg ∈ l, seg ≠ [] ∧ seg ≠ dotSeg ∧ seg ≠ dotDotSeg) →
    l.foldl normStep acc = acc ++ l := by
  intro l
  induction l with
  | nil => intro acc _; simp
  | cons seg rest ih =>
    intro acc h
    obtain ⟨h1, h2, h3⟩ := h seg (List.mem_cons_self seg rest)
    simp only [List.foldl_cons,
      normStep_push acc seg h1 h2 h3]
    rw [ih (acc ++ [seg]) (fun u hu => h u (List.mem_cons_of_mem seg hu))]
    simp

/-! Lemmas showing that `maxModelSize` is never read. -/

theorem setMax_files (s : DistributedModelStorage) (m : Nat) :
    (setMaxModelSize s m).files = s.files := rfl

theorem setMax_storagePath (s : DistributedModelStorage) (m : Nat) :
    (setMaxModelSize s m).storagePath = s.storagePath := rfl

theorem setMax_clock (s : DistributedModelStorage) (m : Nat) :
    (setMaxModelSize s m).clock = s.clock := rfl

theorem sortedModels_setMax (s : DistributedModelStorage) (m : Nat) :
    sortedModels (setMaxModelSize s m) = sortedModels s := rfl

theorem evictGo_setMax (b : Nat) (m : Nat) :
    ∀ (ms : List ModelCacheEntry) (f : Nat) (s : DistributedModelStorage),
    evictGo b f ms (setMaxModelSize s m) =
      setMaxModelSize (evictGo b f ms s) m := by
  intro ms
  induction ms with
  | nil => intro f s; rfl
  | cons e rest ih =>
    intro f s
    by_cases h : b ≤ f
    · simp [evictGo, h]
    · simp only [evictGo, if_neg h]
      have hstep : ({ setMaxModelSize s m with
          files := (removeFile (setMaxModelSize s m).files
            (getModelStoragePath (setMaxModelSize s m).storagePath e.modelName))
          modelAccessLog :=
            (mapDelete (setMaxModelSize s m).modelAccessLog e.modelName) } :
          DistributedModelStorage) =
        setMaxModelSize { s with
          files := (removeFile s.files
            (getModelStoragePath s.storagePath e.modelName))
          modelAccessLog := (mapDelete s.modelAccessLog e.modelName) } m := rfl
      rw [hstep, ih]

theorem manageCacheSpace_setMax (s : DistributedModelStorage) (m : Nat) :
    manageCacheSpace (setMaxModelSize s m) =
      setMaxModelSize (manageCacheSpace s) m := by
  have h1 : calculateTotalCacheSize (setMaxModelSize s m) =
      calculateTotalCacheSize s := rfl
  have h2 : calculateMaxCacheSize (setMaxModelSize s m) =
      calculateMaxCacheSize s := rfl
  simp only [manageCacheSpace, evictModels, h1, h2, sortedModels_setMax]
  by_cases h : calculateMaxCacheSize s < calculateTotalCacheSize s
  · simp only [if_pos h, evictGo_setMax]
  · simp only [if_neg h]

theorem store_setMax_fst (codec : Codec) (s : DistributedModelStorage)
    (m : Nat) (n : String) (w : List Nat) :
    (storeModelWeights codec (setMaxModelSize s m) n w).1 =
      setMaxModelSize (storeModelWeights codec s n w).1 m := by
  show { manageCacheSpace (setMaxModelSize (updateModelAccessLog
      { s with files := (writeFile s.files (getModelStoragePath s.storagePath n)
          (codec.compress s.storageConfig.compressionLevel w)) } n
      (codec.compress s.storageConfig.compressionLevel w).length) m) with
      clock := (manageCacheSpace (setMaxModelSize (updateModelAccessLog
        { s with files := (writeFile s.files (getModelStoragePath s.storagePath n)
            (codec.compress s.storageConfig.compressionLevel w)) } n
        (codec.compress s.storageConfig.compressionLevel w).length) m)).clock + 1 } =
    setMaxModelSize (storeModelWeights codec s n w).1 m
  rw [manageCacheSpace_setMax]
  rfl

theorem store_setMax_snd (codec : Codec) (s : DistributedModelStorage)
    (m : Nat) (n : String) (w : List Nat) :
    (storeModelWeights codec (setMaxModelSize s m) n w).2 =
      (storeModelWeights codec s n w).2 := rfl

theorem retrieve_setMax_fst (codec : Codec) (s : DistributedModelStorage)
    (m : Nat) (n : String) :
    (retrieveModelWeights codec (setMaxModelSize s m) n).1 =
      setMaxModelSize (retrieveModelWeights codec s n).1 m := by
  have e4 : updateModelAccessCount (setMaxModelSize s m) n =
      setMaxModelSize (updateModelAccessCount s n) m := rfl
  rcases hread : readFile s.files (getModelStoragePath s.storagePath n)
    with _ | c
  · simp [retrieveModelWeights, setMax_files, setMax_storagePath, hread,
      setMaxModelSize]
  · rcases hd : codec.decompress c with msg | b
    · simp [retrieveModelWeights, setMax_files, setMax_storagePath, hread,
        hd, e4, setMaxModelSize, updateModelAccessCount]
    · simp [retrieveModelWeights, setMax_files, setMax_storagePath, hread,
        hd, e4, setMaxModelSize, updateModelAccessCount]

theorem retrieve_setMax_snd (codec : Codec) (s : DistributedModelStorage)
    (m : Nat) (n : String) :
    (retrieveModelWeights codec (setMaxModelSize s m) n).2 =
      (retrieveModelWeights codec s n).2 := by
  rcases hread : readFile s.files (getModelStoragePath s.storagePath n)
    with _ | c
  · simp [retrieveModelWeights, setMax_files, setMax_storagePath, hread]
  · rcases hd : codec.decompress c with msg | b
    · simp [retrieveModelWeights, setMax_files, setMax_storagePath, hread, hd]
    · simp [retrieveModelWeights, setMax_files, setMax_storagePath, hread, hd]

theorem listCachedModels_setMax (s : DistributedModelStorage) (m : Nat) :
    listCachedModels (setMaxModelSize s m) = listCachedModels s := rfl

theorem getCacheStats_setMax (s : DistributedModelStorage) (m : Nat) :
    getCacheStats (setMaxModelSize s m) = getCacheStats s := rfl

/-! Claim theorems. -/

/-- Claim C2, counterexample: two states with identical configuration
(and identical, empty access logs) but different sampled stat sizes for
the storage directory get different capacities (100 vs 200 bytes), so the
capacity is not a fixed, explicitly configured byte budget — it is
derived at runtime from sampled filesystem metadata. -/
theorem C2_capacity_counterexample :
    s0.storageConfig = s0big.storageConfig ∧
    s0.modelAccessLog = s0big.modelAccessLog ∧
    calculateMaxCacheSize s0 = 100 ∧
    calculateMaxCacheSize s0big = 200 ∧
    calculateMaxCacheSize s0 ≠ calculateMaxCacheSize s0big := by
  decide

/-- Claim C2, amended: the capacity compared against occupied space (by
eviction after a store and by the stats' free-space figure) is
`floor(0.8 * fs.statSync(storagePath).size)`, recomputed from the sampled
stat size at each use; it is a function of that sampled value alone and
eviction does not run while occupied space is within it. -/
theorem C2_capacity_amended :
    (∀ s : DistributedModelStorage,
      calculateMaxCacheSize s = getTotalDiskSpace s * 4 / 5) ∧
    (∀ s₁ s₂ : DistributedModelStorage, s₁.diskStatSize = s₂.diskStatSize →
      calculateMaxCacheSize s₁ = calculateMaxCacheSize s₂) ∧
    (∀ s : DistributedModelStorage,
      (getCacheStats s).availableSpace =
        (calculateMaxCacheSize s : Int) - (calculateTotalCacheSize s : Int)) ∧
    (∀ s : DistributedModelStorage,
      calculateTotalCacheSize s ≤ calculateMaxCacheSize s →
      manageCacheSpace s = s) := by
  refine ⟨fun s => rfl, ?_, fun s => rfl, ?_⟩
  · intro s₁ s₂ h
    simp [calculateMaxCacheSize, getTotalDiskSpace, h]
  · intro s h
    have hne : ¬ calculateMaxCacheSize s < calculateTotalCacheSize s := by
      omega
    simp [manageCacheSpace, hne]

/-- Claim C2, witness: the amended theorem applied at concrete states. -/
theorem C2_capacity_witness :
    calculateMaxCacheSize s0 = calculateMaxCacheSize sA ∧
    manageCacheSpace sC = sC :=
  ⟨C2_capacity_amended.2.1 s0 sA (by decide),
   C2_capacity_amended.2.2.2 sC (by decide)⟩

/-- Claim C5, counterexample: on a state where the file for "B" exists
but decompression fails, the retrieval does not fail with a distinct
`StorageError` — it throws the same single generic `Error` whose message
claims the model was not found, exactly as for a never-stored name. -/
theorem C5_retrieve_errors_counterexample :
    (readFile sC.files (getModelStoragePath "/store" "B")).isSome = true ∧
    (retrieveModelWeights failCodec sC "B").2 =
      Except.error (retrieveErrorMsg "B" "junk") ∧
    (retrieveModelWeights idCodec sC "nonexistent").2 =
      Except.error (retrieveErrorMsg "nonexistent" enoentMsg) := by
  decide

/-- Claim C5, amended: every retrieval failure — missing file, or a file
that fails to decompress — surfaces as the same single generic error
whose message says the model was not found in storage (prefixed
`Model <name> not found in storage:`); there is no distinct
`StorageError`.  For a never-stored name the operation always fails with
that error (never returns bytes, empty or otherwise), and when the file
exists and decompresses the stored bytes are returned. -/
theorem C5_retrieve_errors_amended :
    (∀ (codec : Codec) (s : DistributedModelStorage) (n : String),
      readFile s.files (getModelStoragePath s.storagePath n) = none →
      (retrieveModelWeights codec s n).2 =
        Except.error (retrieveErrorMsg n enoentMsg)) ∧
    (∀ (codec : Codec) (s : DistributedModelStorage) (n : String)
      (c : List Nat) (msg : String),
      readFile s.files (getModelStoragePath s.storagePath n) = some c →
      codec.decompress c = Except.error msg →
      (retrieveModelWeights codec s n).2 =
        Except.error (retrieveErrorMsg n msg)) ∧
    (∀ (codec : Codec) (s : DistributedModelStorage) (n : String)
      (c b : List Nat),
      readFile s.files (getModelStoragePath s.storagePath n) = some c →
      codec.decompress c = Except.ok b →
      (retrieveModelWeights codec s n).2 = Except.ok b) := by
  refine ⟨?_, ?_, ?_⟩
  · intro codec s n h
    simp [retrieveModelWeights, h]
  · intro codec s n c msg h hd
    simp [retrieveModelWeights, h, hd]
  · intro codec s n c b h hd
    exact retrieve_of_file codec s n c b h hd

/-- Claim C5, witness: the amended theorem applied at concrete states. -/
theorem C5_retrieve_errors_witness :
    (retrieveModelWeights idCodec sC "nonexistent").2 =
      Except.error (retrieveErrorMsg "nonexistent" enoentMsg) ∧
    (retrieveModelWeights failCodec sC "B").2 =
      Except.error (retrieveErrorMsg "B" "junk") :=
  ⟨C5_retrieve_errors_amended.1 idCodec sC "nonexistent" (by decide),
   C5_retrieve_errors_amended.2.1 failCodec sC "B" (List.replicate 40 2)
     "junk" (by decide) (by decide)⟩

/-- Claim C6, counterexample: storing with an empty name and an empty
payload does not fail with a `ValidationError` (or at all) and does store
an entry — the source performs no validation. -/
theorem C6_store_validation_counterexample :
    (storeModelWeights idCodec s0 "" []).2 = Except.ok () ∧
    (storeModelWeights idCodec s0 "" []).1.modelAccessLog =
      [{ modelName := "", timestamp := 0, size := 0, accessCount := 1 }] := by
  decide

/-- Claim C6, amended: `storeModelWeights` performs no validation of the
name or the payload: in the modelled fault-free environment every store
— including one with an empty name or an empty payload — succeeds, and
the empty-name/empty-payload store writes a file and creates an entry
keyed by the empty string. -/
theorem C6_store_validation_amended :
    (∀ (codec : Codec) (s : DistributedModelStorage) (n : String)
      (w : List Nat), (storeModelWeights codec s n w).2 = Except.ok ()) ∧
    (mapGet (storeModelWeights idCodec s0 "" []).1.modelAccessLog "").isSome
      = true ∧
    (readFile (storeModelWeights idCodec s0 "" []).1.files
      (getModelStoragePath "/store" "")).isSome = true := by
  refine ⟨fun codec s n w => rfl, by decide, by decide⟩

/-- Claim C7, counterexample: two states with identical configuration,
identical (empty) listed entries and identical occupied bytes report
different `availableSpace` (100 vs 200), because free space is computed
from the sampled stat size, not from a configured capacity. -/
theorem C7_stats_counterexample :
    s0.storageConfig = s0big.storageConfig ∧
    listCachedModels s0 = listCachedModels s0big ∧
    (getCacheStats s0).totalSize = (getCacheStats s0big).totalSize ∧
    (getCacheStats s0).availableSpace = 100 ∧
    (getCacheStats s0big).availableSpace = 200 := by
  decide

/-- Claim C7, amended: in every state, `getCacheStats` reports
`totalSize` equal to the sum of the sizes of exactly the entries whose
names `listCachedModels` returns, `totalModels` equal to their number,
and `availableSpace` equal to the derived capacity (floor of 0.8 times
the sampled stat size) minus `totalSize` — not a configured capacity. -/
theorem C7_stats_amended (s : DistributedModelStorage) :
    (getCacheStats s).totalSize = sizeSum s.modelAccessLog ∧
    listCachedModels s = s.modelAccessLog.map (fun e => e.modelName) ∧
    (getCacheStats s).totalModels = (listCachedModels s).length ∧
    (getCacheStats s).availableSpace =
      (calculateMaxCacheSize s : Int) -
        ((getCacheStats s).totalSize : Int) := by
  refine ⟨calculateTotalCacheSize_eq s, rfl, ?_, rfl⟩
  simp [getCacheStats, listCachedModels]

theorem evictGo_nil (b f : Nat) (s : DistributedModelStorage) :
    evictGo b f [] s = s := rfl

theorem evictGo_cons (b f : Nat) (m : ModelCacheEntry)
    (rest : List ModelCacheEntry) (s : DistributedModelStorage) :
    evictGo b f (m :: rest) s =
      if b ≤ f then s else evictGo b (f + m.size) rest (removeEntry s m) :=
  rfl

set_option maxRecDepth 8000 in
/-- Claim C1, counterexample: with the computed capacity at 100 bytes, a
150-byte artifact is stored successfully under a codec satisfying the
byte-exact round-trip contract, yet the immediately following retrieval
(no intervening operation) fails — the store's own eviction pass deleted
the entry it had just written. -/
theorem C1_roundtrip_counterexample :
    ("A" : String) ≠ "" ∧
    List.replicate 150 1 ≠ ([] : List Nat) ∧
    idCodec.decompress (idCodec.compress s0.storageConfig.compressionLevel
      (List.replicate 150 1)) = Except.ok (List.replicate 150 1) ∧
    (storeModelWeights idCodec s0 "A" (List.replicate 150 1)).2 =
      Except.ok () ∧
    (retrieveModelWeights idCodec sBig "A").2 =
      Except.error (retrieveErrorMsg "A" enoentMsg) := by
  refine ⟨by decide, by decide, rfl, rfl, by decide⟩

/-- Claim C1, amended: if the codec round-trips the payload, the access
log's names are distinct, no other cached name maps to the same file
path, and the entry written by the store is still present afterwards
(the store's own eviction pass did not evict it), then a retrieval with
no intervening operation returns exactly the stored bytes. -/
theorem C1_roundtrip_amended (codec : Codec) (s : DistributedModelStorage)
    (n : String) (b : List Nat)
    (hrt : codec.decompress
      (codec.compress s.storageConfig.compressionLevel b) = Except.ok b)
    (hnd : namesNodup s.modelAccessLog)
    (hdist : ∀ e ∈ s.modelAccessLog, e.modelName ≠ n →
      getModelStoragePath s.storagePath e.modelName ≠
        getModelStoragePath s.storagePath n)
    (hin : (mapGet (storeModelWeights codec s n b).1.modelAccessLog n).isSome
      = true) :
    (retrieveModelWeights codec (storeModelWeights codec s n b).1 n).2 =
      Except.ok b := by
  have hf := store_keeps_file codec s n b hnd hdist hin
  apply retrieve_of_file codec _ n
    (codec.compress s.storageConfig.compressionLevel b) b
  · rw [store_storagePath]
    exact hf
  · exact hrt

/-- Claim C1, witness: the amended theorem applied at a concrete store
that stays within capacity. -/
theorem C1_roundtrip_witness :
    (retrieveModelWeights idCodec
      (storeModelWeights idCodec s0 "A" [1, 2, 3]).1 "A").2 =
      Except.ok [1, 2, 3] :=
  C1_roundtrip_amended idCodec s0 "A" [1, 2, 3] rfl (by decide) (by decide)
    (by decide)

/-- Claim C3: the eviction pass is triggered exactly when a store leaves
occupied space above the computed capacity; it removes the shortest
prefix of the candidate list — the log's entries stably sorted ascending
by last-access time under `lru` (the source's name for
leastRecentlyUsed) or by access count under `least_accessed`
(leastFrequentlyUsed), ties resolved by map insertion order — whose
sizes cover the overshoot, deleting each victim's backend file and map
entry, and stops as soon as occupied space is at most capacity; and the
concrete 40/40/40 scenario at capacity 100 evicts exactly A, keeping
B and C with 80 ≤ 100 occupied. -/
theorem C3_eviction_policy :
    (∀ s : DistributedModelStorage,
      calculateMaxCacheSize s < calculateTotalCacheSize s →
      manageCacheSpace s =
        evictModels s
          (calculateTotalCacheSize s - calculateMaxCacheSize s)) ∧
    (∀ (s : DistributedModelStorage) (b : Nat),
      evictModels s b =
        removeEntries
          ((sortedModels s).take (victimCount b 0 (sortedModels s))) s) ∧
    (∀ (s : DistributedModelStorage) (b : Nat),
      b ≤ sizeSum (sortedModels s) →
      b ≤ sizeSum ((sortedModels s).take (victimCount b 0 (sortedModels s)))) ∧
    (∀ (s : DistributedModelStorage) (b j : Nat),
      j < victimCount b 0 (sortedModels s) →
      sizeSum ((sortedModels s).take j) < b) ∧
    (∀ s : DistributedModelStorage,
      List.Sorted (evictRank s.storageConfig.evictionStrategy)
        (List.insertionSort (evictRank s.storageConfig.evictionStrategy)
          s.modelAccessLog.enum) ∧
      (List.insertionSort (evictRank s.storageConfig.evictionStrategy)
        s.modelAccessLog.enum).Perm s.modelAccessLog.enum) ∧
    (∀ s : DistributedModelStorage, namesNodup s.modelAccessLog →
      calculateTotalCacheSize (manageCacheSpace s) ≤
        calculateMaxCacheSize s) ∧
    (listCachedModels sC = ["B", "C"] ∧
      calculateTotalCacheSize sC = 80 ∧
      calculateMaxCacheSize sC = 100 ∧
      readFile sC.files (getModelStoragePath "/store" "A") = none ∧
      (readFile sC.files (getModelStoragePath "/store" "B")).isSome = true ∧
      (readFile sC.files (getModelStoragePath "/store" "C")).isSome = true ∧
      mapGet sC.modelAccessLog "A" = none ∧
      sC.storageConfig.evictionStrategy = EvictionStrategy.lru) := by
  refine ⟨?_, ?_, ?_, ?_, ?_, ?_, ?_⟩
  · intro s h
    simp [manageCacheSpace, h]
  · intro s b
    unfold evictModels
    exact evictGo_eq b (sortedModels s) 0 s
  · intro s b h
    have := le_sizeSum_take_victimCount b (sortedModels s) 0 (by simpa using h)
    simpa using this
  · intro s b j h
    have := sizeSum_take_lt_victimCount b (sortedModels s) 0 j h
    simpa using this
  · intro s
    exact ⟨List.sorted_insertionSort _ _, List.perm_insertionSort _ _⟩
  · intro s h
    exact manageCacheSpace_le s h
  · decide

/-- Claim C3, witness: the theorem applied at concrete states — an
over-capacity state triggers eviction, 40 bytes to free are covered by
the victim prefix of `sC`'s candidates, and after cache management the
occupied space of `sC` is within capacity. -/
theorem C3_eviction_witness :
    manageCacheSpace sOver =
      evictModels sOver
        (calculateTotalCacheSize sOver - calculateMaxCacheSize sOver) ∧
    40 ≤ sizeSum ((sortedModels sC).take (victimCount 40 0 (sortedModels sC))) ∧
    calculateTotalCacheSize (manageCacheSpace sC) ≤ calculateMaxCacheSize sC :=
  ⟨C3_eviction_policy.1 sOver (by decide),
   C3_eviction_policy.2.2.1 sC 40 (by decide),
   C3_eviction_policy.2.2.2.2.2.1 sC (by decide)⟩

set_option maxRecDepth 8000 in
/-- Claim C4, counterexample: storing a single 150-byte artifact into a
fresh store with computed capacity 100 succeeds, but the entry written by
that very store has been evicted by the same store's eviction pass (its
file deleted too), and the cache is left empty — within capacity, not
over it. -/
theorem C4_self_eviction_counterexample :
    (storeModelWeights idCodec s0 "A" (List.replicate 150 1)).2 =
      Except.ok () ∧
    mapGet sBig.modelAccessLog "A" = none ∧
    sBig.files = [] ∧
    calculateTotalCacheSize sBig ≤ calculateMaxCacheSize sBig := by
  decide

/-- Claim C4, amended: the eviction pass ranks the just-written entry
together with all others; when a store into an empty cache writes an
artifact whose compressed size alone exceeds the computed capacity, the
store still reports success but its own entry is evicted by the same
operation, leaving the log empty and the occupied space (0) within
capacity. -/
theorem C4_self_eviction_amended (codec : Codec)
    (s : DistributedModelStorage) (n : String) (w : List Nat)
    (hempty : s.modelAccessLog = [])
    (hover : calculateMaxCacheSize s <
      (codec.compress s.storageConfig.compressionLevel w).length) :
    (storeModelWeights codec s n w).2 = Except.ok () ∧
    (storeModelWeights codec s n w).1.modelAccessLog = [] ∧
    calculateTotalCacheSize (storeModelWeights codec s n w).1 ≤
      calculateMaxCacheSize s := by
  set c := codec.compress s.storageConfig.compressionLevel w with hc
  set p := getModelStoragePath s.storagePath n with hp
  set s1 : DistributedModelStorage :=
    { s with files := (writeFile s.files p c) } with hs1
  set s2 := updateModelAccessLog s1 n c.length with hs2
  set e := storeEntry s1 n c.length with he
  have hlog1 : s1.modelAccessLog = [] := hempty
  have hlog2 : s2.modelAccessLog = [e] := by
    show mapSet s1.modelAccessLog e = [e]
    rw [hlog1]
    rfl
  have hsize : e.size = c.length := rfl
  have htot2 : calculateTotalCacheSize s2 = c.length := by
    rw [calculateTotalCacheSize_eq, hlog2, sizeSum_cons, sizeSum_nil]
    omega
  have hmax2 : calculateMaxCacheSize s2 = calculateMaxCacheSize s := rfl
  have hover2 : calculateMaxCacheSize s2 < calculateTotalCacheSize s2 := by
    rw [hmax2, htot2]
    exact hover
  have hsorted : sortedModels s2 = [e] := by
    unfold sortedModels
    rw [hlog2]
    rfl
  have hmanage : manageCacheSpace s2 =
      evictGo (calculateTotalCacheSize s2 - calculateMaxCacheSize s2) 0
        [e] s2 := by
    simp only [manageCacheSpace, evictModels]
    rw [if_pos hover2, hsorted]
  have hnotle :
      ¬ (calculateTotalCacheSize s2 - calculateMaxCacheSize s2 ≤ 0) := by
    omega
  have hevict :
      evictGo (calculateTotalCacheSize s2 - calculateMaxCacheSize s2) 0
        [e] s2 = removeEntry s2 e := by
    rw [evictGo_cons, if_neg hnotle, evictGo_nil]
  have hdel : (removeEntry s2 e).modelAccessLog = [] := by
    show mapDelete s2.modelAccessLog e.modelName = []
    rw [hlog2]
    simp [mapDelete]
  have hlogfinal : (storeModelWeights codec s n w).1.modelAccessLog = [] := by
    show (manageCacheSpace s2).modelAccessLog = []
    rw [hmanage, hevict, hdel]
  refine ⟨rfl, hlogfinal, ?_⟩
  rw [calculateTotalCacheSize_eq, hlogfinal, sizeSum_nil]
  exact Nat.zero_le _

set_option maxRecDepth 8000 in
/-- Claim C4, witness: the amended theorem applied at the concrete
capacity-exceeding store. -/
theorem C4_self_eviction_witness :
    (storeModelWeights idCodec s0 "A" (List.replicate 150 1)).2 =
      Except.ok () ∧
    (storeModelWeights idCodec s0 "A"
      (List.replicate 150 1)).1.modelAccessLog = [] ∧
    calculateTotalCacheSize
      (storeModelWeights idCodec s0 "A" (List.replicate 150 1)).1 ≤
      calculateMaxCacheSize s0 :=
  C4_self_eviction_amended idCodec s0 "A" (List.replicate 150 1) rfl
    (by decide)

/-- Claim C8, counterexample: right after construction over a directory
that still contains a stored file (the restart scenario), the file exists
but the in-memory access log is empty — a backing file without an entry,
so the entry/file pairing does not survive process restarts. -/
theorem C8_pairing_counterexample :
    (readFile restartState.files
      (getModelStoragePath "/store" "A")).isSome = true ∧
    restartState.modelAccessLog = [] := by
  decide

/-- Claim C8, amended: a store writes the entry and the backing file
together (whenever the stored name survives its own store's eviction
pass and no other cached name maps to the same path, the file at the
derived path is present afterwards), but the constructor never rebuilds
the in-memory index from disk: it always starts with an empty access log
while leaving pre-existing files in place, so the pairing does not
survive restarts. -/
theorem C8_pairing_amended :
    (∀ (storagePath : String) (config : ModelStorageConfig)
      (existingFiles : List (List String × List Nat)) (d c : Nat),
      (mkStorage storagePath config existingFiles d c).modelAccessLog = [] ∧
      (mkStorage storagePath config existingFiles d c).files =
        existingFiles) ∧
    (∀ (codec : Codec) (s : DistributedModelStorage) (n : String)
      (w : List Nat),
      namesNodup s.modelAccessLog →
      (∀ e ∈ s.modelAccessLog, e.modelName ≠ n →
        getModelStoragePath s.storagePath e.modelName ≠
          getModelStoragePath s.storagePath n) →
      (mapGet (storeModelWeights codec s n w).1.modelAccessLog n).isSome
        = true →
      (readFile (storeModelWeights codec s n w).1.files
        (getModelStoragePath (storeModelWeights codec s n w).1.storagePath
          n)).isSome = true) := by
  refine ⟨fun p cfg fs d c => ⟨rfl, rfl⟩, ?_⟩
  intro codec s n w hnd hdist hin
  rw [store_storagePath, store_keeps_file codec s n w hnd hdist hin]
  rfl

/-- Claim C8, witness: the amended theorem applied at a concrete store. -/
theorem C8_pairing_witness :
    (readFile (storeModelWeights idCodec s0 "A" [1, 2, 3]).1.files
      (getModelStoragePath
        (storeModelWeights idCodec s0 "A" [1, 2, 3]).1.storagePath
        "A")).isSome = true :=
  C8_pairing_amended.2 idCodec s0 "A" [1, 2, 3] (by decide) (by decide)
    (by decide)

/-- Claim C9, counterexample: the backend key is built with no
sanitization, so the name `../evil` yields the normalized path
`/store/evil.brotli`, which is outside the cache directory
`/store/model_cache`. -/
theorem C9_path_counterexample :
    getModelStoragePath "/store" "../evil" = ["store", "evil.brotli"] ∧
    List.isPrefixOf ["store", "model_cache"]
      (getModelStoragePath "/store" "../evil") = false := by
  decide

/-- Claim C9, amended: the backend key is derived deterministically as
the unsanitized name plus the fixed `.brotli` extension joined under the
cache directory; only for names containing no path separator is the
resulting normalized path guaranteed to stay inside the cache directory
(`<storagePath>/model_cache/`) — names with separators can escape it, as
the counterexample shows. -/
theorem C9_path_amended (storagePath modelName : String)
    (hn : '/' ∉ modelName.data) :
    getModelStoragePath storagePath modelName =
      (normSegs (splitSlash storagePath.data)).map String.mk ++
        ["model_cache", modelName ++ ".brotli"] ∧
    List.isPrefixOf
      ((normSegs (splitSlash storagePath.data)).map String.mk ++
        ["model_cache"])
      (getModelStoragePath storagePath modelName) = true := by
  have hmc : splitSlash ("model_cache" : String).data =
      [("model_cache" : String).data] :=
    splitSlash_no_slash _ (by decide)
  have hnb : (modelName ++ ".brotli").data =
      modelName.data ++ (".brotli" : String).data := by
    simp
  have hnoslash : '/' ∉ (modelName ++ ".brotli").data := by
    rw [hnb]
    intro hmem
    rcases List.mem_append.mp hmem with h1 | h2
    · exact hn h1
    · exact absurd h2 (by decide)
  have hsplit : splitSlash (modelName ++ ".brotli").data =
      [(modelName ++ ".brotli").data] :=
    splitSlash_no_slash _ hnoslash
  have hflat : ([storagePath, "model_cache",
      modelName ++ ".brotli"] : List String).flatMap
        (fun q => splitSlash q.data) =
      splitSlash storagePath.data ++
        [("model_cache" : String).data, (modelName ++ ".brotli").data] := by
    show splitSlash storagePath.data ++
      (splitSlash ("model_cache" : String).data ++
        (splitSlash (modelName ++ ".brotli").data ++ [])) = _
    rw [hmc, hsplit]
    simp
  have hlen : (modelName ++ ".brotli").data.length =
      modelName.data.length + 7 := by
    rw [hnb]
    simp
  have h1 : (modelName ++ ".brotli").data ≠ [] := by
    intro hcontra
    have hl := congrArg List.length hcontra
    rw [hlen] at hl
    have h0 : ([] : List Char).length = 0 := rfl
    rw [h0] at hl
    omega
  have h2 : (modelName ++ ".brotli").data ≠ dotSeg := by
    intro hcontra
    have hl := congrArg List.length hcontra
    rw [hlen] at hl
    have h0 : dotSeg.length = 1 := rfl
    rw [h0] at hl
    omega
  have h3 : (modelName ++ ".brotli").data ≠ dotDotSeg := by
    intro hcontra
    have hl := congrArg List.length hcontra
    rw [hlen] at hl
    have h0 : dotDotSeg.length = 2 := rfl
    rw [h0] at hl
    omega
  have hmain : normSegs (splitSlash storagePath.data ++
      [("model_cache" : String).data, (modelName ++ ".brotli").data]) =
      normSegs (splitSlash storagePath.data) ++
        [("model_cache" : String).data, (modelName ++ ".brotli").data] := by
    unfold normSegs
    rw [List.foldl_append]
    apply foldl_normStep_clean
    intro seg hseg
    rcases List.mem_cons.mp hseg with hs1 | hs2
    · subst hs1
      refine ⟨by decide, by decide, by decide⟩
    · rcases List.mem_cons.mp hs2 with hs3 | hs4
      · subst hs3
        exact ⟨h1, h2, h3⟩
      · cases hs4
  have hpath : getModelStoragePath storagePath modelName =
      (normSegs (splitSlash storagePath.data) ++
        [("model_cache" : String).data,
          (modelName ++ ".brotli").data]).map String.mk := by
    unfold getModelStoragePath pathJoin
    rw [hflat, hmain]
  have hmk1 : String.mk ("model_cache" : String).data =
      ("model_cache" : String) := rfl
  have hmk2 : String.mk (modelName ++ ".brotli").data =
      modelName ++ ".brotli" := rfl
  constructor
  · rw [hpath, List.map_append]
    simp only [List.map_cons, List.map_nil, hmk1, hmk2]
  · rw [List.isPrefixOf_iff_prefix, hpath, List.map_append]
    simp only [List.map_cons, List.map_nil, hmk1, hmk2]
    refine ⟨[modelName ++ ".brotli"], ?_⟩
    simp

/-- Claim C9, witness: the amended theorem applied at a concrete
separator-free name. -/
theorem C9_path_witness :
    getModelStoragePath "/store" "A" =
      (normSegs (splitSlash ("/store" : String).data)).map String.mk ++
        ["model_cache", "A" ++ ".brotli"] ∧
    List.isPrefixOf
      ((normSegs (splitSlash ("/store" : String).data)).map String.mk ++
        ["model_cache"])
      (getModelStoragePath "/store" "A") = true :=
  C9_path_amended "/store" "A" (by decide)

/-- Claim C10: the `maxModelSize` configuration field is never read: for
any two configurations differing only in `maxModelSize`, every sequence
of store/retrieve/list/stats calls produces identical caller-visible
results and cache states that differ only in that stored field; in
particular no per-artifact size limit is ever enforced on a store, which
always succeeds. -/
theorem C10_maxModelSize_unused :
    (∀ (codec : Codec) (ops : List Op) (s : DistributedModelStorage)
      (m : Nat),
      (run codec ops (setMaxModelSize s m)).2 = (run codec ops s).2 ∧
      (run codec ops (setMaxModelSize s m)).1 =
        setMaxModelSize (run codec ops s).1 m) ∧
    (∀ (codec : Codec) (s : DistributedModelStorage) (n : String)
      (w : List Nat), (storeModelWeights codec s n w).2 = Except.ok ()) := by
  constructor
  · intro codec ops
    induction ops with
    | nil => intro s m; exact ⟨rfl, rfl⟩
    | cons op rest ih =>
      intro s m
      cases op with
      | store n w =>
        obtain ⟨ihr, ihs⟩ := ih (storeModelWeights codec s n w).1 m
        constructor
        · simp only [run, runOp]
          rw [store_setMax_fst, store_setMax_snd, ihr]
        · simp only [run, runOp]
          rw [store_setMax_fst, ihs]
      | retrieve n =>
        obtain ⟨ihr, ihs⟩ := ih (retrieveModelWeights codec s n).1 m
        constructor
        · simp only [run, runOp]
          rw [retrieve_setMax_fst, retrieve_setMax_snd, ihr]
        · simp only [run, runOp]
          rw [retrieve_setMax_fst, ihs]
      | list =>
        obtain ⟨ihr, ihs⟩ := ih s m
        constructor
        · simp only [run, runOp]
          rw [listCachedModels_setMax, ihr]
        · simp only [run, runOp]
          rw [ihs]
      | stats =>
        obtain ⟨ihr, ihs⟩ := ih s m
        constructor
        · simp only [run, runOp]
          rw [getCacheStats_setMax, ihr]
        · simp only [run, runOp]
          rw [ihs]
  · intro codec s n w
    rfl

end StorageManager
